import Mathlib

/-!
Verification development for the telegraph-glossary repository.

Part 1 embeds `src/services/text_parser.py`: the builtin marking-syntax
registry, custom-syntax construction and validation, and the
`TextParser.process_text` substitution engine.

Part 2 embeds the AI provider normalization layer
(`src/services/ai_providers/{claude,openai,gemini}_provider.py`):
tool-format conversion and tool-call extraction.

Python regexes are embedded semantically: every pattern occurring in the
source has the restricted shape "literal preamble, one capture group over a
character class (`\w` or `[\w\s]`, greedy or lazy `+`), literal tail", and
the matcher below implements Python's backtracking behaviour for exactly
this shape.  The character classes `\w` and `\s` are modelled over their
ASCII fragments.
-/

set_option maxHeartbeats 1000000

namespace TelegraphGlossary

/-- ASCII fragment of Python's regex class `\w` (word characters). -/
def isWordChar (c : Char) : Bool :=
  c.isAlpha || c.isDigit || c == '_'

/-- ASCII fragment of Python's regex class `\s` (whitespace characters). -/
def isSpaceChar (c : Char) : Bool :=
  c == ' ' || c == '\t' || c == '\n' || c == '\r' || c == '\x0b' || c == '\x0c'

/-- The two capture-group character classes occurring in the source regexes:
`\w` in the builtin patterns, `[\w\s]` in custom patterns. -/
inductive CharClass : Type where
  | word : CharClass
  | wordSpace : CharClass
  deriving DecidableEq, Repr

/-- Membership in a character class. -/
def CharClass.memb : CharClass → Char → Bool
  | .word, c => isWordChar c
  | .wordSpace, c => isWordChar c || isSpaceChar c

/-- Semantic form of the regexes used by `text_parser.py`: a literal
preamble, one capture group `cls+` (greedy) or `cls+?` (lazy), and a
literal tail.  All four builtin patterns and every custom pattern built by
`create_custom_syntax` have this shape. -/
structure Pattern where
  pre : List Char
  cls : CharClass
  lazy : Bool
  suf : List Char
  deriving DecidableEq, Repr

/-- Strip the literal `lit` from the front of `s`; `none` when `lit` is not
a prefix of `s` (regex literal matching). -/
def stripLit : List Char → List Char → Option (List Char)
  | [], s => some s
  | _ :: _, [] => none
  | l :: ls, c :: cs => if l == c then stripLit ls cs else none

/-- All ways the capture group can split the class run `run` followed by
`rest`: the capture takes `j+1` leading characters of the run.  Listed with
the shortest capture first — the preference order of a lazy `+?` group. -/
def splits (run rest : List Char) : List (List Char × List Char) :=
  (List.range run.length).map (fun j => (run.take (j + 1), run.drop (j + 1) ++ rest))

/-- Match `pat` at the start of `s` with Python's backtracking semantics:
the literal preamble, then at least one class character, then the literal
tail; a greedy group prefers the longest capture, a lazy group the
shortest.  Returns the captured characters and the text after the match. -/
def matchAt (pat : Pattern) (s : List Char) : Option (List Char × List Char) :=
  match stripLit pat.pre s with
  | none => none
  | some s1 =>
    let run := s1.takeWhile pat.cls.memb
    let rest := s1.dropWhile pat.cls.memb
    let cands := if pat.lazy then splits run rest else (splits run rest).reverse
    cands.findSome? (fun cand => (stripLit pat.suf cand.2).map (fun r => (cand.1, r)))

/-- The characters Python's `re.escape` (3.7+) prefixes with a backslash. -/
def reSpecialChars : List Char :=
  ['(', ')', '[', ']', '\x7b', '\x7d', '?', '*', '+', '-', '|', '^',
   '$', '\\', '.', '&', '~', '#', ' ', '\t', '\n', '\r', '\x0b', '\x0c']

/-- Is `c` one of the characters `re.escape` escapes? -/
def isReSpecial (c : Char) : Bool := reSpecialChars.contains c

/-- Python's `re.escape`. -/
def reEscape (s : List Char) : List Char :=
  s.flatMap (fun c => if isReSpecial c then ['\\', c] else [c])

/-- One entry of the syntax-pattern dictionaries of `text_parser.py`: the
regex source string, the display string and the example string (the source's
`"example"` key is called `exampleText` here because `example` is reserved
in Lean). -/
structure SyntaxInfo where
  pattern : String
  display : String
  exampleText : String
  deriving DecidableEq, Repr

/-- `DEFAULT_SYNTAX_PATTERNS` (`text_parser.py` lines 6-11). -/
def DEFAULT_SYNTAX_PATTERNS : List (String × SyntaxInfo) :=
  [ ("<?>", ⟨"(\\w+)<\\?>", "term<?>", "The CPU<?> is fast"⟩),
    ("[[]]", ⟨"\\[\\[(\\w+)\\]\\]", "[[term]]", "The [[CPU]] is fast"⟩),
    ("\x7b\x7b\x7d\x7d", ⟨"\\\x7b\\\x7b(\\w+)\\\x7d\\\x7d", "\x7b\x7bterm\x7d\x7d",
      "The \x7b\x7bCPU\x7d\x7d is fast"⟩),
    ("<<>>", ⟨"<<(\\w+)>>", "<<term>>", "The <<CPU>> is fast"⟩) ]

/-- `SYNTAX_PATTERNS = DEFAULT_SYNTAX_PATTERNS.copy()`, in its default
state (no `register_custom_syntax` call has mutated it). -/
def SYNTAX_PATTERNS : List (String × SyntaxInfo) := DEFAULT_SYNTAX_PATTERNS

/-- `create_custom_syntax(prefix, suffix)` from `text_parser.py`: escape
the pair literally and capture `[\w\s]+?` (lazy) between them.  (The Lean
name adds `_info` because the source name ends in a word reserved here.) -/
def create_custom_syntax_info (pre suf : String) : SyntaxInfo :=
  { pattern := ⟨reEscape pre.data ++ "([\\w\\s]+?)".data ++ reEscape suf.data⟩,
    display := pre ++ "term" ++ suf,
    exampleText := "The " ++ pre ++ "CPU" ++ suf ++ " is fast" }

/-- Regex metacharacters that cannot stand bare in a literal run. -/
def metaChars : List Char :=
  ['(', ')', '[', ']', '\x7b', '\x7d', '?', '*', '+', '|', '^', '$', '\\', '.']

/-- Is `c` a regex metacharacter? -/
def isMetaChar (c : Char) : Bool := metaChars.contains c

/-- Decode an escaped regex literal run: `\c` stands for the character `c`
(when `c` is not alphanumeric), and a bare character stands for itself when
it is not a metacharacter.  `none` on any construct outside this fragment. -/
def unescapeLit : List Char → Option (List Char)
  | [] => some []
  | c :: rest =>
    if c == '\\' then
      match rest with
      | [] => none
      | d :: rest2 =>
        if d.isAlphanum then none
        else (unescapeLit rest2).map (fun r => d :: r)
    else if isMetaChar c then none
    else (unescapeLit rest).map (fun r => c :: r)

/-- Source text of the builtin capture group `(\w+)`. -/
def grpW : List Char := "(\\w+)".data

/-- Source text of the custom capture group `([\w\s]+?)`. -/
def grpWS : List Char := "([\\w\\s]+?)".data

/-- Split a regex source string around its (single) capture group; the
`Bool` is `true` for the custom group `([\w\s]+?)`. -/
def splitAtGroup : List Char → Option (List Char × Bool × List Char)
  | [] => none
  | c :: rest =>
    if grpW.isPrefixOf (c :: rest) then some ([], false, (c :: rest).drop grpW.length)
    else if grpWS.isPrefixOf (c :: rest) then some ([], true, (c :: rest).drop grpWS.length)
    else (splitAtGroup rest).map (fun pr => (c :: pr.1, pr.2))

/-- Compile a regex source string of the restricted shape used by
`text_parser.py` into its semantic `Pattern` (`re.compile`'s reading of
those strings); `none` outside the fragment. -/
def compilePattern (s : List Char) : Option Pattern :=
  match splitAtGroup s with
  | none => none
  | some (p, lz, q) =>
    match unescapeLit p, unescapeLit q with
    | some pre, some suf => some ⟨pre, if lz then .wordSpace else .word, lz, suf⟩
    | _, _ => none

/-- `validate_custom_syntax(prefix, suffix)` from `text_parser.py`,
returning `(ok, message)`.  The `re.compile`/`re.error` branch is modelled
by `compilePattern` failing on the escaped pattern.  (The Lean name differs
because the source name ends in a word reserved here.) -/
def validate_custom_pair (pre suf : String) : Bool × String :=
  if pre = "" || suf = "" then (false, "Both prefix and suffix are required")
  else if pre.length > 10 || suf.length > 10 then
    (false, "Prefix and suffix must be 10 characters or less")
  else
    match compilePattern (reEscape pre.data ++ "([\\w\\s]+?)".data ++ reEscape suf.data) with
    | none => (false, "Invalid pattern")
    | some _ => (true, "")

/-- One glossary entry as consumed by the parser: the code reads only
`entry.get("telegraph_url", "")`, so only that field is modelled; `none`
models a dict without the key. -/
structure GlossaryEntry where
  telegraph_url : Option String
  deriving DecidableEq, Repr

/-- The glossary map: an association list in insertion order, mirroring a
Python dict (keys unique, iteration order = insertion order). -/
abbrev Glossary := List (String × GlossaryEntry)

/-- `entry.get("telegraph_url", "")`. -/
def GlossaryEntry.url (e : GlossaryEntry) : String := e.telegraph_url.getD ""

/-- `TextParser._format_link(term, url, output_format)`. -/
def format_link (term url fmt : String) : String :=
  if fmt = "html" then "<a href=\"" ++ url ++ "\">" ++ term ++ "</a>"
  else if fmt = "telegram" then term
  else "[" ++ term ++ "](" ++ url ++ ")"

/-- `TextParser._format_missing(term, output_format)`. -/
def format_missing (term fmt : String) : String :=
  if fmt = "html" then "<span style=\"color: red;\">" ++ term ++ "</span>"
  else if fmt = "telegram" then "[" ++ term ++ "?]"
  else "**" ++ term ++ "**"

/-- Python's `str.lower()` over the ASCII fragment, implemented over the
character list (`String.toLower` is extensionally the same function but
its byte-position recursion does not reduce inside proofs). -/
def pyLower (s : String) : String := ⟨s.data.map Char.toLower⟩

/-- The `replacer` closure inside `TextParser.process_text`: resolve one
captured term against the glossary — exact key first, then the first
case-insensitively equal key in insertion order — and return the
replacement string together with the elements appended to `found_terms`
and `missing_terms`. -/
def replacer (g : Glossary) (term fmt : String) : String × List String × List String :=
  match g.find? (fun p => p.1 == term) with
  | some p => (format_link term p.2.url fmt, [term], [])
  | none =>
    match g.find? (fun p => pyLower p.1 == pyLower term) with
    | some p => (format_link term p.2.url fmt, [p.1], [])
    | none => (format_missing term fmt, [], [term])

/-- `re.sub(pattern, replacer, text)` together with the lists the replacer
appends to: scan left to right, replace each leftmost match, and continue
after it.  `fuel` bounds the number of scanning steps; the caller passes
`fuel = s.length`, which always suffices because every step consumes at
least one character (`matchAt_rest_lt`), so the fuel-exhausted equation is
never reached from `TextParser.process_text`. -/
def subScan (pat : Pattern) (g : Glossary) (fmt : String) :
    Nat → List Char → List Char × List String × List String
  | _, [] => ([], [], [])
  | 0, s => (s, [], [])
  | fuel + 1, c :: t =>
    match matchAt pat (c :: t) with
    | some (cap, rest) =>
      let rep := replacer g ⟨cap⟩ fmt
      let tail := subScan pat g fmt fuel rest
      (rep.1.data ++ tail.1, rep.2.1 ++ tail.2.1, rep.2.2 ++ tail.2.2)
    | none =>
      let tail := subScan pat g fmt fuel t
      (c :: tail.1, tail.2.1, tail.2.2)

/-- `list(set(xs))`.  Python's set iteration order is unspecified; it is
modelled as first-occurrence deduplication, and the claims below use the
result only through sets of size at most one, where order is immaterial. -/
def pySet (xs : List String) : List String := xs.eraseDups

/-- The `TextParser` state set by `__init__`: the syntax name (the field is
`syntaxName` because `syntax` is reserved in Lean), the glossary, and the
chosen regex pattern string. -/
structure TextParser where
  syntaxName : String
  glossary : Glossary
  pattern : String
  deriving DecidableEq, Repr

/-- Python truthiness of an optional string argument (`None` and `""` are
falsy). -/
def truthy : Option String → Bool
  | none => false
  | some s => s ≠ ""

/-- `TextParser.__init__(syntax, glossary, custom_prefix, custom_suffix)`;
`Except.error` models the `ValueError` raise.  `SYNTAX_PATTERNS` is taken
in its default state. -/
def TextParser.make (syn : String) (g : Glossary)
    (custom_pre custom_suf : Option String) : Except String TextParser :=
  if syn = "custom" && truthy custom_pre && truthy custom_suf then
    Except.ok ⟨syn, g,
      (create_custom_syntax_info (custom_pre.getD "") (custom_suf.getD "")).pattern⟩
  else
    match SYNTAX_PATTERNS.find? (fun p => p.1 == syn) with
    | some p => Except.ok ⟨syn, g, p.2.pattern⟩
    | none => Except.error ("Unknown syntax: " ++ syn)

/-- `TextParser.process_text(text, output_format)`; `none` models a regex
string outside the compilable fragment (never reached from
`TextParser.make`, as proved below). -/
def TextParser.process_text (tp : TextParser) (text fmt : String) :
    Option (String × List String × List String) :=
  match compilePattern tp.pattern.data with
  | none => none
  | some pat =>
    let r := subScan pat tp.glossary fmt text.data.length text.data
    some (⟨r.1⟩, pySet r.2.1, pySet r.2.2)

/-! ### Part 2: the AI provider normalization layer -/

/-- JSON-like values passed around by the provider layer (tool schemas,
parsed tool arguments).  Numbers are modelled as integers; the float
fragment of JSON is not exercised by the schemas or the claims. -/
inductive Json : Type where
  | null : Json
  | bool (b : Bool) : Json
  | num (n : Int) : Json
  | str (s : String) : Json
  | arr (elems : List Json) : Json
  | obj (fields : List (String × Json)) : Json

mutual

/-- Does `k` occur as an object key anywhere inside `j`? -/
def Json.containsKey (k : String) : Json → Bool
  | .obj fields => Json.containsKeyFields k fields
  | .arr elems => Json.containsKeyList k elems
  | _ => false

/-- `Json.containsKey` over an object's field list. -/
def Json.containsKeyFields (k : String) : List (String × Json) → Bool
  | [] => false
  | (k2, v) :: rest => k2 == k || Json.containsKey k v || Json.containsKeyFields k rest

/-- `Json.containsKey` over an array's element list. -/
def Json.containsKeyList (k : String) : List Json → Bool
  | [] => false
  | v :: rest => Json.containsKey k v || Json.containsKeyList k rest

end

/-- JSON whitespace accepted between tokens by `json.loads`. -/
def isJsonWs (c : Char) : Bool :=
  c == ' ' || c == '\t' || c == '\n' || c == '\r'

/-- Drop leading JSON whitespace. -/
def skipWs : List Char → List Char
  | [] => []
  | c :: rest => if isJsonWs c then skipWs rest else c :: rest

/-- Parse the body of a JSON string after the opening quote, returning the
decoded content and the input after the closing quote.  The `\uXXXX` escape
is outside the modelled fragment. -/
def parseStringBody : Nat → List Char → Option (List Char × List Char)
  | 0, _ => none
  | _ + 1, [] => none
  | fuel + 1, c :: rest =>
    if c == '"' then some ([], rest)
    else if c == '\\' then
      match rest with
      | [] => none
      | d :: rest2 =>
        let dec : Option Char :=
          if d == '"' then some '"'
          else if d == '\\' then some '\\'
          else if d == '/' then some '/'
          else if d == 'b' then some '\x08'
          else if d == 'f' then some '\x0c'
          else if d == 'n' then some '\n'
          else if d == 'r' then some '\r'
          else if d == 't' then some '\t'
          else none
        match dec with
        | none => none
        | some ch => (parseStringBody fuel rest2).map (fun pr => (ch :: pr.1, pr.2))
    else (parseStringBody fuel rest).map (fun pr => (c :: pr.1, pr.2))

/-- Numeric value of a digit run. -/
def digitsToNat (ds : List Char) : Nat :=
  ds.foldl (fun acc c => acc * 10 + (c.toNat - '0'.toNat)) 0

mutual

/-- Parse one JSON value (recursive descent; `fuel` bounds the recursion
depth and is amply supplied by `json_loads`). -/
def parseValue : Nat → List Char → Option (Json × List Char)
  | 0, _ => none
  | fuel + 1, s0 =>
    match skipWs s0 with
    | [] => none
    | c :: rest =>
      if c == '"' then (parseStringBody (fuel + 1) rest).map (fun pr => (Json.str ⟨pr.1⟩, pr.2))
      else if c == '-' || c.isDigit then
        let neg := c == '-'
        let body := if neg then rest else c :: rest
        let ds := body.takeWhile Char.isDigit
        let rest2 := body.dropWhile Char.isDigit
        if ds.isEmpty then none
        else
          match rest2 with
          | e :: _ =>
            if e == '.' || e == 'e' || e == 'E' then none
            else some (Json.num (if neg then -(digitsToNat ds : Int) else (digitsToNat ds : Int)), rest2)
          | [] => some (Json.num (if neg then -(digitsToNat ds : Int) else (digitsToNat ds : Int)), [])
      else if c == 't' then (stripLit "rue".data rest).map (fun r => (Json.bool true, r))
      else if c == 'f' then (stripLit "alse".data rest).map (fun r => (Json.bool false, r))
      else if c == 'n' then (stripLit "ull".data rest).map (fun r => (Json.null, r))
      else if c == '[' then
        match skipWs rest with
        | ']' :: r2 => some (Json.arr [], r2)
        | r1 => (parseElems fuel r1).map (fun pr => (Json.arr pr.1, pr.2))
      else if c == '\x7b' then
        match skipWs rest with
        | '\x7d' :: r2 => some (Json.obj [], r2)
        | r1 => (parseMembers fuel r1).map (fun pr => (Json.obj pr.1, pr.2))
      else none

/-- Parse the comma-separated elements of a non-empty JSON array, up to and
including the closing bracket. -/
def parseElems : Nat → List Char → Option (List Json × List Char)
  | 0, _ => none
  | fuel + 1, s =>
    match parseValue fuel s with
    | none => none
    | some (v, r) =>
      match skipWs r with
      | ',' :: r2 => (parseElems fuel r2).map (fun pr => (v :: pr.1, pr.2))
      | ']' :: r2 => some ([v], r2)
      | _ => none

/-- Parse the comma-separated members of a non-empty JSON object, up to and
including the closing brace. -/
def parseMembers : Nat → List Char → Option (List (String × Json) × List Char)
  | 0, _ => none
  | fuel + 1, s =>
    match skipWs s with
    | '"' :: r =>
      match parseStringBody (fuel + 1) r with
      | none => none
      | some (key, r1) =>
        match skipWs r1 with
        | ':' :: r2 =>
          match parseValue fuel r2 with
          | none => none
          | some (v, r3) =>
            match skipWs r3 with
            | ',' :: r4 => (parseMembers fuel r4).map (fun pr => ((⟨key⟩, v) :: pr.1, pr.2))
            | '\x7d' :: r4 => some ([(⟨key⟩, v)], r4)
            | _ => none
        | _ => none
    | _ => none

end

/-- `json.loads`: parse a complete JSON document, allowing surrounding
whitespace and rejecting trailing garbage; `none` models
`json.JSONDecodeError`. -/
def json_loads (s : String) : Option Json :=
  match parseValue (s.length + 1) s.data with
  | none => none
  | some (v, rest) => if (skipWs rest).isEmpty then some v else none

/-- A tool dict as consumed by the providers' `convert_tools_format`: the
code reads `tool["name"]`, `tool.get("description", "")` and
`tool.get("input_schema", {"type": "object", "properties": {}})`, so those
three fields are modelled (`none` models a missing key). -/
structure McpTool where
  name : String
  description : Option String
  input_schema : Option Json

/-- The normalized tool-call shape `{"id": ..., "name": ..., "input": ...}`
produced by every provider's `extract_tool_calls`. -/
structure CanonToolCall where
  id : String
  name : String
  input : Json

/-- `OpenAIProvider.convert_tools_format`: wrap each MCP tool in the
`{type: "function", function: {name, description, parameters}}` envelope,
renaming `input_schema` to `parameters`. -/
def OpenAIProvider.convert_tools_format (mcp_tools : List McpTool) : List Json :=
  mcp_tools.map (fun tool => Json.obj
    [("type", Json.str "function"),
     ("function", Json.obj
       [("name", Json.str tool.name),
        ("description", Json.str (tool.description.getD "")),
        ("parameters", tool.input_schema.getD
          (Json.obj [("type", Json.str "object"), ("properties", Json.obj [])]))])])

/-- The `function` payload of one OpenAI tool call, as produced by
`OpenAIProvider._response_to_dict` (`arguments` is always a JSON string). -/
structure OpenAIFunctionPayload where
  name : String
  arguments : String
  deriving DecidableEq, Repr

/-- One element of the `message.tool_calls` array of an OpenAI response
dict (the unused `type` field is omitted). -/
structure OpenAIToolCallDict where
  id : String
  function : OpenAIFunctionPayload
  deriving DecidableEq, Repr

/-- The `message` dict of an OpenAI choice; `tool_calls` is only present
when the model called tools (`none` models a missing key). -/
structure OpenAIMessageDict where
  content : Option String
  tool_calls : Option (List OpenAIToolCallDict)
  deriving DecidableEq, Repr

/-- One element of the `choices` array of an OpenAI response dict. -/
structure OpenAIChoiceDict where
  message : OpenAIMessageDict
  deriving DecidableEq, Repr

/-- An OpenAI response dict as produced by
`OpenAIProvider._response_to_dict` (only the fields read by
`extract_tool_calls` are modelled). -/
structure OpenAIResponse where
  choices : List OpenAIChoiceDict
  deriving DecidableEq, Repr

/-- `OpenAIProvider.extract_tool_calls`: `none` when there are no choices
or the first message has no (or an empty) `tool_calls` array; otherwise
each call's JSON `arguments` string is parsed, falling back to the empty
map on a parse error. -/
def OpenAIProvider.extract_tool_calls (response : OpenAIResponse) :
    Option (List CanonToolCall) :=
  match response.choices with
  | [] => none
  | choice :: _ =>
    match choice.message.tool_calls with
    | none => none
    | some [] => none
    | some calls => some (calls.map (fun call =>
        { id := call.id, name := call.function.name,
          input := (json_loads call.function.arguments).getD (Json.obj []) }))

/-- One content block of a Claude response dict, as produced by
`ClaudeProvider._content_block_to_dict`. -/
inductive ClaudeBlock : Type where
  | text (text : String) : ClaudeBlock
  | tool_use (id name : String) (input : Json) : ClaudeBlock
  | unknown : ClaudeBlock

/-- A Claude response dict as produced by
`ClaudeProvider._response_to_dict` (only the fields read by
`extract_tool_calls` are modelled; `stop_reason` may be `None`). -/
structure ClaudeResponse where
  stop_reason : Option String
  content : List ClaudeBlock

/-- `ClaudeProvider.extract_tool_calls`: `none` unless `stop_reason` is
`"tool_use"`; collect the `tool_use` blocks; `none` again when there are
none (`tool_calls if tool_calls else None`). -/
def ClaudeProvider.extract_tool_calls (response : ClaudeResponse) :
    Option (List CanonToolCall) :=
  if response.stop_reason ≠ some "tool_use" then none
  else
    let tool_calls := response.content.filterMap (fun block =>
      match block with
      | .tool_use i n inp => some { id := i, name := n, input := inp }
      | _ => none)
    if tool_calls.isEmpty then none else some tool_calls

/-- One entry of the `function_calls` list of a Gemini response dict, as
produced by `GeminiProvider._parse_response`. -/
structure GeminiFunctionCall where
  name : String
  args : Json

/-- A Gemini response dict as produced by `GeminiProvider._parse_response`
(only the field read by `extract_tool_calls` is modelled; `_parse_response`
always populates it, with `[]` when no function call is present). -/
structure GeminiResponse where
  function_calls : List GeminiFunctionCall

/-- `GeminiProvider.extract_tool_calls`: `none` when `function_calls` is
empty, otherwise synthesize sequential ids `call_0`, `call_1`, … -/
def GeminiProvider.extract_tool_calls (response : GeminiResponse) :
    Option (List CanonToolCall) :=
  let function_calls := response.function_calls
  if function_calls.isEmpty then none
  else some (function_calls.enum.map (fun pr =>
    { id := "call_" ++ toString pr.1, name := pr.2.name, input := pr.2.args }))

/-! ### Lemmas -/

theorem stripLit_length {lit s t : List Char} (h : stripLit lit s = some t) :
    s.length = lit.length + t.length := by
  induction lit generalizing s with
  | nil => simp [stripLit] at h; simp [h]
  | cons l ls ih =>
    cases s with
    | nil => simp [stripLit] at h
    | cons c cs =>
      simp only [stripLit] at h
      split at h
      · simpa [Nat.succ_add] using ih h
      · exact absurd h (by simp)

theorem stripLit_self (lit : List Char) : stripLit lit lit = some [] := by
  induction lit with
  | nil => rfl
  | cons l ls ih => simp [stripLit, ih]

theorem stripLit_append (lit s : List Char) : stripLit lit (lit ++ s) = some s := by
  induction lit with
  | nil => rfl
  | cons l ls ih => simp [stripLit, ih]

theorem mem_splits {run rest : List Char} {cand : List Char × List Char}
    (h : cand ∈ splits run rest) :
    1 ≤ cand.1.length ∧ cand.1.length + cand.2.length = run.length + rest.length ∧
      ∃ j, j < run.length ∧ cand.1 = run.take (j + 1) := by
  simp only [splits, List.mem_map, List.mem_range] at h
  obtain ⟨j, hj, rfl⟩ := h
  refine ⟨by simp [List.length_take]; omega, ?_, j, hj, rfl⟩
  simp [List.length_take, List.length_drop]
  omega

theorem matchAt_some {pat : Pattern} {s cap rest : List Char}
    (h : matchAt pat s = some (cap, rest)) :
    1 ≤ cap.length ∧ pat.pre.length + cap.length + pat.suf.length + rest.length = s.length ∧
      (∀ c ∈ cap, pat.cls.memb c = true) := by
  unfold matchAt at h
  cases hp : stripLit pat.pre s with
  | none => simp [hp] at h
  | some s1 =>
    rw [hp] at h
    simp only at h
    have hcand := List.exists_of_findSome?_eq_some h
    obtain ⟨cand, hmem, hf⟩ := hcand
    have hmem' : cand ∈ splits (s1.takeWhile pat.cls.memb) (s1.dropWhile pat.cls.memb) := by
      by_cases hl : pat.lazy = true
      · simpa [hl] using hmem
      · simp only [Bool.not_eq_true] at hl
        rw [hl] at hmem
        simpa using List.mem_reverse.mp (by simpa using hmem)
    obtain ⟨h1, h2, j, hj, hcap⟩ := mem_splits hmem'
    cases hs : stripLit pat.suf cand.2 with
    | none => simp [hs] at hf
    | some r =>
      rw [hs] at hf
      simp only [Option.map_some'] at hf
      have hc1 : cand.1 = cap := congrArg Prod.fst (Option.some.inj hf)
      have hc2 : r = rest := congrArg Prod.snd (Option.some.inj hf)
      subst hc1
      subst hc2
      have hlen1 := stripLit_length hp
      have hlen2 := stripLit_length hs
      have hrun : (s1.takeWhile pat.cls.memb).length + (s1.dropWhile pat.cls.memb).length
          = s1.length := by
        rw [← List.length_append, List.takeWhile_append_dropWhile]
      refine ⟨by omega, by omega, ?_⟩
      intro c hc
      rw [hcap] at hc
      have := List.mem_takeWhile_imp (List.mem_of_mem_take hc)
      exact this

theorem matchAt_rest_lt {pat : Pattern} {s cap rest : List Char}
    (h : matchAt pat s = some (cap, rest)) : rest.length < s.length := by
  have := matchAt_some h
  omega

theorem matchAt_nil (pat : Pattern) : matchAt pat [] = none := by
  unfold matchAt
  cases hp : stripLit pat.pre [] with
  | none => rfl
  | some s1 =>
    have hs1 : s1 = [] := by
      cases hpre : pat.pre with
      | nil => rw [hpre] at hp; simp [stripLit] at hp; exact hp
      | cons a l => rw [hpre] at hp; simp [stripLit] at hp
    subst hs1
    simp [splits]

theorem word_not_space {c : Char} (h : isWordChar c = true) : isSpaceChar c = false := by
  cases hs : isSpaceChar c with
  | false => rfl
  | true =>
    exfalso
    simp only [isSpaceChar, Bool.or_eq_true, beq_iff_eq] at hs
    rcases hs with ((((rfl | rfl) | rfl) | rfl) | rfl) | rfl <;> exact absurd h (by decide)

theorem matchAt_mark {pat : Pattern} {T b : List Char} {sh : Char} {st : List Char}
    (hT : T ≠ []) (hTc : ∀ c ∈ T, pat.cls.memb c = true)
    (hsuf : pat.suf = sh :: st) (hsh : pat.cls.memb sh = false) :
    matchAt pat (pat.pre ++ (T ++ (pat.suf ++ b))) = some (T, b) := by
  unfold matchAt
  rw [stripLit_append]
  simp only
  have htake : (T ++ (pat.suf ++ b)).takeWhile pat.cls.memb = T := by
    rw [List.takeWhile_append_of_pos hTc, hsuf]
    simp [hsh]
  have hdrop : (T ++ (pat.suf ++ b)).dropWhile pat.cls.memb = pat.suf ++ b := by
    rw [List.dropWhile_append_of_pos hTc, hsuf]
    simp [hsh]
  rw [htake, hdrop]
  obtain ⟨m, hm⟩ : ∃ m, T.length = m + 1 := by
    cases T with
    | nil => exact absurd rfl hT
    | cons x xs => exact ⟨xs.length, rfl⟩
  have hsplit : splits T (pat.suf ++ b) =
      ((List.range m).map (fun j => (T.take (j + 1), T.drop (j + 1) ++ (pat.suf ++ b))))
        ++ [(T, pat.suf ++ b)] := by
    unfold splits
    rw [hm, List.range_succ, List.map_append]
    congr 1
    simp [← hm]
  have hlast : stripLit pat.suf (pat.suf ++ b) = some b := stripLit_append _ _
  have hfail : ∀ cand ∈ (List.range m).map
      (fun j => (T.take (j + 1), T.drop (j + 1) ++ (pat.suf ++ b))),
      (stripLit pat.suf cand.2).map (fun r => (cand.1, r)) = none := by
    intro cand hc
    simp only [List.mem_map, List.mem_range] at hc
    obtain ⟨j, hj, rfl⟩ := hc
    have hjlt : j + 1 < T.length := by omega
    rw [List.drop_eq_getElem_cons hjlt]
    have hd : pat.cls.memb (T[j+1]) = true := hTc _ (T.getElem_mem hjlt)
    have hne : (sh == T[j+1]) = false := by
      apply beq_eq_false_iff_ne.mpr
      intro e
      rw [← e] at hd
      rw [hd] at hsh
      exact Bool.true_eq_false.mp hsh
    simp only [hsuf, List.cons_append, stripLit, hne, Bool.false_eq_true, if_false]
    rfl
  by_cases hlz : pat.lazy = true
  · rw [if_pos hlz, hsplit, List.findSome?_append]
    have h1 : ((List.range m).map
        (fun j => (T.take (j + 1), T.drop (j + 1) ++ (pat.suf ++ b)))).findSome?
        (fun cand => (stripLit pat.suf cand.2).map (fun r => (cand.1, r))) = none :=
      List.findSome?_eq_none_iff.mpr hfail
    rw [h1, Option.none_or]
    simp [List.findSome?, hlast]
  · rw [if_neg hlz, hsplit, List.reverse_append]
    simp only [List.reverse_singleton, List.singleton_append]
    simp [List.findSome?, hlast]

theorem subScan_no_match {pat : Pattern} {g : Glossary} {fmt : String} :
    ∀ {s : List Char} {fuel : Nat},
    (∀ i < s.length, matchAt pat (s.drop i) = none) →
    subScan pat g fmt fuel s = (s, [], []) := by
  intro s
  induction s with
  | nil =>
    intro fuel h
    cases fuel <;> rfl
  | cons c t ih =>
    intro fuel h
    cases fuel with
    | zero => rfl
    | succ f =>
      have h0 : matchAt pat (c :: t) = none := by simpa using h 0 (by simp)
      have ht : subScan pat g fmt f t = (t, [], []) :=
        ih (fun i hi => by simpa using h (i + 1) (by simpa using hi))
      simp [subScan, h0, ht]

theorem subScan_prescan {pat : Pattern} {g : Glossary} {fmt : String} :
    ∀ (a : List Char) {s : List Char} {n : Nat},
    (∀ i < a.length, matchAt pat (a.drop i ++ s) = none) → a.length ≤ n →
    subScan pat g fmt n (a ++ s) =
      (a ++ (subScan pat g fmt (n - a.length) s).1,
        (subScan pat g fmt (n - a.length) s).2.1,
        (subScan pat g fmt (n - a.length) s).2.2) := by
  intro a
  induction a with
  | nil =>
    intro s n _ _
    simp
  | cons c a' ih =>
    intro s n h hle
    cases n with
    | zero => simp at hle
    | succ f =>
      have h0 : matchAt pat (c :: (a' ++ s)) = none := by simpa using h 0 (by simp)
      have hrec := ih (s := s) (n := f)
        (fun i hi => by simpa using h (i + 1) (by simpa using hi))
        (by simpa [Nat.succ_le_succ_iff] using hle)
      simp [subScan, h0, hrec, Nat.succ_sub_succ]

theorem subScan_found {pat : Pattern} {g : Glossary} {fmt : String}
    {s cap b : List Char} {fuel : Nat}
    (hm : matchAt pat s = some (cap, b))
    (hb : ∀ i < b.length, matchAt pat (b.drop i) = none)
    (hfuel : 1 ≤ fuel) :
    subScan pat g fmt fuel s =
      ((replacer g ⟨cap⟩ fmt).1.data ++ b,
        (replacer g ⟨cap⟩ fmt).2.1, (replacer g ⟨cap⟩ fmt).2.2) := by
  cases s with
  | nil => rw [matchAt_nil] at hm; cases hm
  | cons c t =>
    cases fuel with
    | zero => omega
    | succ f =>
      have hbscan : subScan pat g fmt f b = (b, [], []) := subScan_no_match hb
      simp [subScan, hm, hbscan]

theorem process_text_single (tp : TextParser) (pat : Pattern) (fmt : String)
    (a b T : List Char) {sh : Char} {st : List Char}
    (hcp : compilePattern tp.pattern.data = some pat)
    (hT : T ≠ []) (hTc : ∀ c ∈ T, pat.cls.memb c = true)
    (hsuf : pat.suf = sh :: st) (hsh : pat.cls.memb sh = false)
    (ha : ∀ i < a.length, matchAt pat (a.drop i ++ (pat.pre ++ (T ++ (pat.suf ++ b)))) = none)
    (hb : ∀ i < b.length, matchAt pat (b.drop i) = none) :
    tp.process_text ⟨a ++ (pat.pre ++ (T ++ (pat.suf ++ b)))⟩ fmt =
      some (⟨a ++ ((replacer tp.glossary ⟨T⟩ fmt).1.data ++ b)⟩,
        pySet (replacer tp.glossary ⟨T⟩ fmt).2.1,
        pySet (replacer tp.glossary ⟨T⟩ fmt).2.2) := by
  unfold TextParser.process_text
  rw [hcp]
  have hlen : a.length ≤ (String.mk (a ++ (pat.pre ++ (T ++ (pat.suf ++ b))))).data.length := by
    simp
  have heq : (String.mk (a ++ (pat.pre ++ (T ++ (pat.suf ++ b))))).data
      = a ++ (pat.pre ++ (T ++ (pat.suf ++ b))) := rfl
  simp only [heq]
  rw [subScan_prescan a ha (by simp)]
  have hfuel1 : 1 ≤ (a ++ (pat.pre ++ (T ++ (pat.suf ++ b)))).length - a.length := by
    have : T.length ≥ 1 := by
      cases T with
      | nil => exact absurd rfl hT
      | cons x xs => simp
    simp [List.length_append]
    omega
  rw [subScan_found (matchAt_mark hT hTc hsuf hsh) hb hfuel1]

theorem special_not_alphanum {c : Char} (h : isReSpecial c = true) : c.isAlphanum = false := by
  have hm : c ∈ reSpecialChars :=
    List.mem_of_elem_eq_true (by simpa [isReSpecial, List.contains] using h)
  have hall : ∀ x ∈ reSpecialChars, x.isAlphanum = false := by decide
  exact hall c hm

theorem not_special_not_meta {c : Char} (h : isReSpecial c = false) : isMetaChar c = false := by
  cases hmeta : isMetaChar c with
  | false => rfl
  | true =>
    exfalso
    have hm : c ∈ metaChars :=
      List.mem_of_elem_eq_true (by simpa [isMetaChar, List.contains] using hmeta)
    have hall : ∀ x ∈ metaChars, x ∈ reSpecialChars := by decide
    have hsp : isReSpecial c = true := by
      show reSpecialChars.contains c = true
      simpa [List.contains] using List.elem_eq_true_of_mem (hall c hm)
    rw [hsp] at h
    cases h

theorem not_special_ne {c x : Char} (h : isReSpecial c = false) (hx : isReSpecial x = true) :
    (x == c) = false := by
  apply beq_eq_false_iff_ne.mpr
  intro e
  rw [e, h] at hx
  cases hx

theorem special_ne_safe {c x : Char} (h : isReSpecial c = true) (hx : isReSpecial x = false) :
    (x == c) = false := by
  apply beq_eq_false_iff_ne.mpr
  intro e
  rw [e, h] at hx
  cases hx

theorem reEscape_cons_special {c : Char} {a : List Char} (h : isReSpecial c = true) :
    reEscape (c :: a) = '\\' :: c :: reEscape a := by
  simp [reEscape, h]

theorem reEscape_cons_safe {c : Char} {a : List Char} (h : isReSpecial c = false) :
    reEscape (c :: a) = c :: reEscape a := by
  simp [reEscape, h]

theorem unescapeLit_reEscape (a : List Char) : unescapeLit (reEscape a) = some a := by
  induction a with
  | nil => rfl
  | cons c a' ih =>
    cases hc : isReSpecial c with
    | true =>
      rw [reEscape_cons_special hc]
      have halpha : c.isAlphanum = false := special_not_alphanum hc
      rw [unescapeLit.eq_def]
      simp [halpha, ih]
    | false =>
      rw [reEscape_cons_safe hc]
      have hbs : (c == '\\') = false := by
        apply beq_eq_false_iff_ne.mpr
        intro e
        rw [e] at hc
        exact absurd hc (by decide)
      have hmeta : isMetaChar c = false := not_special_not_meta hc
      rw [unescapeLit.eq_def]
      simp [hbs, hmeta, ih]

theorem grpW_tail_not_prefix (a t : List Char) :
    ['\\', 'w', '+', ')'].isPrefixOf (reEscape a ++ (grpWS ++ t)) = false := by
  cases a with
  | nil => rfl
  | cons d a' =>
    cases hd : isReSpecial d with
    | true =>
      rw [reEscape_cons_special hd]
      have hw : ('w' == d) = false := special_ne_safe hd (by decide)
      simp [List.isPrefixOf, hw]
    | false =>
      rw [reEscape_cons_safe hd]
      have hbs : ('\\' == d) = false := not_special_ne hd (by decide)
      simp [List.isPrefixOf, hbs]

theorem grpWS_tail_not_prefix (a t : List Char) :
    ['[', '\\', 'w', '\\', 's', ']', '+', '?', ')'].isPrefixOf
      (reEscape a ++ (grpWS ++ t)) = false := by
  cases a with
  | nil => rfl
  | cons d a' =>
    cases hd : isReSpecial d with
    | true =>
      rw [reEscape_cons_special hd]
      have hbr : ('[' == '\\') = false := by decide
      simp [List.isPrefixOf, hbr]
    | false =>
      rw [reEscape_cons_safe hd]
      have hbr : ('[' == d) = false := not_special_ne hd (by decide)
      simp [List.isPrefixOf, hbr]

theorem splitAtGroup_reEscape (a t : List Char) :
    splitAtGroup (reEscape a ++ (grpWS ++ t)) = some (reEscape a, true, t) := by
  induction a with
  | nil =>
    rw [show reEscape [] ++ (grpWS ++ t) = grpWS ++ t from rfl]
    rw [show (grpWS ++ t : List Char)
        = '(' :: ('[' :: '\\' :: 'w' :: '\\' :: 's' :: ']' :: '+' :: '?' :: ')' :: t) from rfl]
    rw [splitAtGroup.eq_def]
    have h1 : grpW.isPrefixOf
        ('(' :: ('[' :: '\\' :: 'w' :: '\\' :: 's' :: ']' :: '+' :: '?' :: ')' :: t)) = false := rfl
    have h2 : grpWS.isPrefixOf
        ('(' :: ('[' :: '\\' :: 'w' :: '\\' :: 's' :: ']' :: '+' :: '?' :: ')' :: t)) = true :=
      List.isPrefixOf_iff_prefix.mpr ⟨t, rfl⟩
    have hdrop : ('(' :: ('[' :: '\\' :: 'w' :: '\\' :: 's' :: ']' :: '+' :: '?' :: ')' :: t)).drop
        grpWS.length = t := rfl
    simp [h1, h2, hdrop, reEscape]
  | cons c a' ih =>
    cases hc : isReSpecial c with
    | false =>
      rw [reEscape_cons_safe hc, List.cons_append]
      have h1 : ('(' == c) = false := not_special_ne hc (by decide)
      have hW : grpW.isPrefixOf (c :: (reEscape a' ++ (grpWS ++ t))) = false := by
        have hg : grpW = '(' :: ['\\', 'w', '+', ')'] := rfl
        simp [hg, List.isPrefixOf, h1]
      have hWS : grpWS.isPrefixOf (c :: (reEscape a' ++ (grpWS ++ t))) = false := by
        have hg : grpWS = '(' :: ['[', '\\', 'w', '\\', 's', ']', '+', '?', ')'] := rfl
        simp [hg, List.isPrefixOf, h1]
      rw [splitAtGroup.eq_def]
      simp [hW, hWS, ih]
    | true =>
      rw [reEscape_cons_special hc]
      simp only [List.cons_append]
      have hbs1 : ('(' == '\\') = false := by decide
      have hW1 : grpW.isPrefixOf ('\\' :: (c :: (reEscape a' ++ (grpWS ++ t)))) = false := by
        have hg : grpW = '(' :: ['\\', 'w', '+', ')'] := rfl
        simp [hg, List.isPrefixOf, hbs1]
      have hWS1 : grpWS.isPrefixOf ('\\' :: (c :: (reEscape a' ++ (grpWS ++ t)))) = false := by
        have hg : grpWS = '(' :: ['[', '\\', 'w', '\\', 's', ']', '+', '?', ')'] := rfl
        simp [hg, List.isPrefixOf, hbs1]
      by_cases hp : c = '('
      · subst hp
        have hW2 : grpW.isPrefixOf ('(' :: (reEscape a' ++ (grpWS ++ t))) = false := by
          rw [show grpW.isPrefixOf ('(' :: (reEscape a' ++ (grpWS ++ t)))
              = ['\\', 'w', '+', ')'].isPrefixOf (reEscape a' ++ (grpWS ++ t)) from rfl]
          exact grpW_tail_not_prefix a' t
        have hWS2 : grpWS.isPrefixOf ('(' :: (reEscape a' ++ (grpWS ++ t))) = false := by
          rw [show grpWS.isPrefixOf ('(' :: (reEscape a' ++ (grpWS ++ t)))
              = ['[', '\\', 'w', '\\', 's', ']', '+', '?', ')'].isPrefixOf
                (reEscape a' ++ (grpWS ++ t)) from rfl]
          exact grpWS_tail_not_prefix a' t
        rw [splitAtGroup.eq_def]
        simp only [hW1, hWS1, Bool.false_eq_true, if_false]
        rw [splitAtGroup.eq_def]
        simp [hW2, hWS2, ih]
      · have h1 : ('(' == c) = false := beq_eq_false_iff_ne.mpr (fun e => hp e.symm)
        have hW2 : grpW.isPrefixOf (c :: (reEscape a' ++ (grpWS ++ t))) = false := by
          have hg : grpW = '(' :: ['\\', 'w', '+', ')'] := rfl
          simp [hg, List.isPrefixOf, h1]
        have hWS2 : grpWS.isPrefixOf (c :: (reEscape a' ++ (grpWS ++ t))) = false := by
          have hg : grpWS = '(' :: ['[', '\\', 'w', '\\', 's', ']', '+', '?', ')'] := rfl
          simp [hg, List.isPrefixOf, h1]
        rw [splitAtGroup.eq_def]
        simp only [hW1, hWS1, Bool.false_eq_true, if_false]
        rw [splitAtGroup.eq_def]
        simp [hW2, hWS2, ih]

theorem compilePattern_custom (p q : List Char) :
    compilePattern (reEscape p ++ ("([\\w\\s]+?)".data ++ reEscape q)) =
      some ⟨p, .wordSpace, true, q⟩ := by
  have hsplit : splitAtGroup (reEscape p ++ (grpWS ++ reEscape q)) =
      some (reEscape p, true, reEscape q) := splitAtGroup_reEscape p (reEscape q)
  unfold compilePattern
  rw [show ("([\\w\\s]+?)".data : List Char) = grpWS from rfl, hsplit]
  simp [unescapeLit_reEscape]

theorem custom_info_pattern_compiles (p s : String) :
    compilePattern (create_custom_syntax_info p s).pattern.data =
      some ⟨p.data, .wordSpace, true, s.data⟩ := by
  rw [show (create_custom_syntax_info p s).pattern.data
      = reEscape p.data ++ "([\\w\\s]+?)".data ++ reEscape s.data from rfl,
    List.append_assoc]
  exact compilePattern_custom p.data s.data

theorem make_ok_pattern {syn : String} {G : Glossary} {cp cs : Option String}
    {tp : TextParser} (hmk : TextParser.make syn G cp cs = Except.ok tp) :
    tp.glossary = G ∧ tp.syntaxName = syn ∧
      ((∃ p s, cp = some p ∧ cs = some s ∧
          tp.pattern = (create_custom_syntax_info p s).pattern) ∨
        ∃ q ∈ SYNTAX_PATTERNS, tp.pattern = q.2.pattern) := by
  unfold TextParser.make at hmk
  by_cases hcond : (decide (syn = "custom") && truthy cp && truthy cs) = true
  · rw [if_pos hcond] at hmk
    have htp := Except.ok.inj hmk
    subst htp
    refine ⟨rfl, rfl, Or.inl ?_⟩
    cases cp with
    | none => simp [truthy] at hcond
    | some p =>
      cases cs with
      | none => simp [truthy] at hcond
      | some s => exact ⟨p, s, rfl, rfl, rfl⟩
  · rw [if_neg hcond] at hmk
    cases hfind : SYNTAX_PATTERNS.find? (fun q => q.1 == syn) with
    | none => rw [hfind] at hmk; cases hmk
    | some q =>
      rw [hfind] at hmk
      have htp := Except.ok.inj hmk
      subst htp
      exact ⟨rfl, rfl, Or.inr ⟨q, List.mem_of_find?_eq_some hfind, rfl⟩⟩

theorem make_builtin_pattern {name : String} {G : Glossary} {tp : TextParser}
    (hmk : TextParser.make name G none none = Except.ok tp) :
    tp.glossary = G ∧
      (tp.pattern = "(\\w+)<\\?>" ∨ tp.pattern = "\\[\\[(\\w+)\\]\\]" ∨
        tp.pattern = "\\\x7b\\\x7b(\\w+)\\\x7d\\\x7d" ∨ tp.pattern = "<<(\\w+)>>") := by
  obtain ⟨hg, -, hcase⟩ := make_ok_pattern hmk
  refine ⟨hg, ?_⟩
  rcases hcase with ⟨p, s, hp, -, -⟩ | ⟨q, hq, hpat⟩
  · cases hp
  · simp only [SYNTAX_PATTERNS, DEFAULT_SYNTAX_PATTERNS, List.mem_cons,
      List.not_mem_nil, or_false] at hq
    rcases hq with rfl | rfl | rfl | rfl
    · exact Or.inl hpat
    · exact Or.inr (Or.inl hpat)
    · exact Or.inr (Or.inr (Or.inl hpat))
    · exact Or.inr (Or.inr (Or.inr hpat))

theorem builtin_pattern_facts {tp : TextParser} {pat : Pattern}
    (hp : tp.pattern = "(\\w+)<\\?>" ∨ tp.pattern = "\\[\\[(\\w+)\\]\\]" ∨
      tp.pattern = "\\\x7b\\\x7b(\\w+)\\\x7d\\\x7d" ∨ tp.pattern = "<<(\\w+)>>")
    (hcp : compilePattern tp.pattern.data = some pat) :
    pat.cls = .word ∧ pat.lazy = false ∧
      ∃ sh st, pat.suf = sh :: st ∧ isWordChar sh = false := by
  rcases hp with h | h | h | h <;> rw [h] at hcp
  · have h0 : compilePattern ("(\\w+)<\\?>" : String).data
        = some ⟨[], .word, false, ['<', '?', '>']⟩ := rfl
    rw [h0] at hcp
    have := (Option.some.inj hcp).symm
    subst this
    exact ⟨rfl, rfl, '<', ['?', '>'], rfl, by decide⟩
  · have h0 : compilePattern ("\\[\\[(\\w+)\\]\\]" : String).data
        = some ⟨['[', '['], .word, false, [']', ']']⟩ := rfl
    rw [h0] at hcp
    have := (Option.some.inj hcp).symm
    subst this
    exact ⟨rfl, rfl, ']', [']'], rfl, by decide⟩
  · have h0 : compilePattern ("\\\x7b\\\x7b(\\w+)\\\x7d\\\x7d" : String).data
        = some ⟨['\x7b', '\x7b'], .word, false, ['\x7d', '\x7d']⟩ := rfl
    rw [h0] at hcp
    have := (Option.some.inj hcp).symm
    subst this
    exact ⟨rfl, rfl, '\x7d', ['\x7d'], rfl, by decide⟩
  · have h0 : compilePattern ("<<(\\w+)>>" : String).data
        = some ⟨['<', '<'], .word, false, ['>', '>']⟩ := rfl
    rw [h0] at hcp
    have := (Option.some.inj hcp).symm
    subst this
    exact ⟨rfl, rfl, '>', ['>'], rfl, by decide⟩

theorem replacer_found_exact {g : Glossary} {T U : String} (fmt : String)
    (hf : g.find? (fun p => p.1 == T) = some (T, ⟨some U⟩)) :
    replacer g T fmt = (format_link T U fmt, [T], []) := by
  unfold replacer
  rw [hf]
  rfl

theorem replacer_ci {g : Glossary} {T : String} {k : String} {e : GlossaryEntry} (fmt : String)
    (h1 : g.find? (fun p => p.1 == T) = none)
    (h2 : g.find? (fun p => pyLower p.1 == pyLower T) = some (k, e)) :
    replacer g T fmt = (format_link T e.url fmt, [k], []) := by
  unfold replacer
  rw [h1, h2]

theorem replacer_missing {g : Glossary} {T : String} (fmt : String)
    (h1 : g.find? (fun p => p.1 == T) = none)
    (h2 : g.find? (fun p => pyLower p.1 == pyLower T) = none) :
    replacer g T fmt = (format_missing T fmt, [], [T]) := by
  unfold replacer
  rw [h1, h2]

theorem pySet_singleton (x : String) : pySet [x] = [x] := rfl

theorem pySet_nil : pySet [] = [] := rfl

/-! ### Claims -/

/-- C4: constructing the text parser with a syntax name that is not a
registered pattern and with no custom prefix/suffix pair fails with the
invalid-syntax error (`ValueError("Unknown syntax: ...")`), and the failure
is at construction time: `TextParser.make` returns `Except.error` before
any input text exists, so no text is ever scanned under an unrecognized
syntax. -/
theorem claim_C4 (name : String) (G : Glossary)
    (hname : ∀ p ∈ SYNTAX_PATTERNS, p.1 ≠ name) :
    TextParser.make name G none none = Except.error ("Unknown syntax: " ++ name) := by
  unfold TextParser.make
  have hfind : SYNTAX_PATTERNS.find? (fun p => p.1 == name) = none :=
    List.find?_eq_none.mpr (fun p hp => by simpa using hname p hp)
  simp [truthy, hfind]

theorem claim_C4_witness :
    (∀ p ∈ SYNTAX_PATTERNS, p.1 ≠ "bogus") ∧
      TextParser.make "bogus" [] none none = Except.error ("Unknown syntax: " ++ "bogus") :=
  ⟨by decide, claim_C4 "bogus" [] (by decide)⟩

/-- C6: `validate_custom_syntax(prefix, suffix)` fails with the
empty-field message when either argument is empty; otherwise fails with
the too-long message when either argument exceeds 10 characters; otherwise
it succeeds (the escaped pattern always compiles, so the invalid-pattern
branch is unreachable in the modelled fragment).  Instantiating gives the
spec's three examples: `("", "]~")` fails empty, an 11-character prefix
fails too-long, and `("~[", "]~")` succeeds. -/
theorem claim_C6 (pre suf : String) :
    ((pre = "" ∨ suf = "") →
      validate_custom_pair pre suf = (false, "Both prefix and suffix are required")) ∧
    (pre ≠ "" → suf ≠ "" → (pre.length > 10 ∨ suf.length > 10) →
      validate_custom_pair pre suf =
        (false, "Prefix and suffix must be 10 characters or less")) ∧
    (pre ≠ "" → suf ≠ "" → pre.length ≤ 10 → suf.length ≤ 10 →
      validate_custom_pair pre suf = (true, "")) := by
  refine ⟨?_, ?_, ?_⟩
  · intro h
    unfold validate_custom_pair
    have hc1 : (pre = "" || suf = "") = true := by
      rcases h with h | h <;> simp [h]
    rw [if_pos hc1]
  · intro h1 h2 h3
    unfold validate_custom_pair
    have hc1 : ¬((pre = "" || suf = "") = true) := by simp [h1, h2]
    have hc2 : (pre.length > 10 || suf.length > 10) = true := by
      rcases h3 with h | h <;> simp [h]
    rw [if_neg hc1, if_pos hc2]
  · intro h1 h2 h3 h4
    unfold validate_custom_pair
    have hc1 : ¬((pre = "" || suf = "") = true) := by simp [h1, h2]
    have hc2 : ¬((pre.length > 10 || suf.length > 10) = true) := by
      simp
      omega
    rw [if_neg hc1, if_neg hc2, List.append_assoc, compilePattern_custom]

theorem claim_C6_witness :
    validate_custom_pair "" "]~" = (false, "Both prefix and suffix are required") ∧
    validate_custom_pair "aaaaaaaaaaa" "]~" =
      (false, "Prefix and suffix must be 10 characters or less") ∧
    validate_custom_pair "~[" "]~" = (true, "") :=
  ⟨(claim_C6 "" "]~").1 (Or.inl rfl),
   (claim_C6 "aaaaaaaaaaa" "]~").2.1 (by decide) (by decide) (Or.inl (by decide)),
   (claim_C6 "~[" "]~").2.2 (by decide) (by decide) (by decide) (by decide)⟩

/-- C1 counterexample: the claim as stated — quantifying over every
active pattern, custom ones included — fails on the code.  With custom
prefix `[` and suffix ` s` (a pair the constructor accepts), a glossary
containing the term `a sb` with URL `u`, and the text `[a sb s`
(= prefix ++ term ++ suffix), the lazy `([\w\s]+?)` capture ends at the
first point where the literal suffix matches, capturing only `a`: the
output is `**a**b s`, which does not contain the substring `[a sb](u)`;
found-terms is empty (so it does not contain `a sb`) and missing-terms is
`["a"]`, not empty. -/
theorem claim_C1_counterexample :
    TextParser.make "custom" [("a sb", ⟨some "u"⟩)] (some "[") (some " s") =
      Except.ok ⟨"custom", [("a sb", ⟨some "u"⟩)], "\\[([\\w\\s]+?)\\ s"⟩ ∧
    ("[a sb s" : String) = ⟨"[".data ++ ("a sb".data ++ " s".data)⟩ ∧
    TextParser.process_text
        ⟨"custom", [("a sb", ⟨some "u"⟩)], "\\[([\\w\\s]+?)\\ s"⟩
        "[a sb s" "markdown" = some ("**a**b s", [], ["a"]) ∧
    ¬ ("[" ++ "a sb" ++ "](" ++ "u" ++ ")").data <:+: ("**a**b s" : String).data ∧
    ("a sb" ∈ ([] : List String) → False) ∧ (["a"] : List String) ≠ [] := by
  refine ⟨rfl, rfl, by decide, ?_, by simp, by simp⟩
  intro h
  have hle := h.length_le
  have h1 : (("[" ++ "a sb" ++ "](" ++ "u" ++ ")").data).length = 9 := rfl
  have h2 : (("**a**b s" : String).data).length = 8 := rfl
  omega

/-- C1 (amended): for every successfully constructed parser — builtin or
custom — whose compiled pattern's literal suffix begins with a character
the capture class cannot match (true of all four builtin syntaxes, whose
suffixes start with `<`, `]`, `}`, `>`, and of custom syntaxes whose
suffix does not begin with a word or whitespace character), and a glossary
containing term `T` (made of class-matchable characters) with telegraph
URL `U`, processing a text in which `T` appears marked (and nothing else
matches the pattern) with output format markdown yields an output
containing the substring `[T](U)`, with found-terms exactly `{T}` and
missing-terms empty; when `T` has no glossary match (exact or
case-insensitive), the same mark renders as `**T**` and `T` is recorded as
missing.  The suffix-head restriction is exactly what
`claim_C1_counterexample` forces: a custom suffix beginning with a
capture-class character lets the lazy capture end before `T`. -/
theorem claim_C1 (name T : String) (G : Glossary) (cp cs : Option String)
    (tp : TextParser) (pat : Pattern) (a b : List Char) (sh : Char) (st : List Char)
    (hmk : TextParser.make name G cp cs = Except.ok tp)
    (hcp : compilePattern tp.pattern.data = some pat)
    (hT : T.data ≠ []) (hTc : ∀ c ∈ T.data, pat.cls.memb c = true)
    (hsuf : pat.suf = sh :: st) (hsh : pat.cls.memb sh = false)
    (ha : ∀ i < a.length,
      matchAt pat (a.drop i ++ (pat.pre ++ (T.data ++ (pat.suf ++ b)))) = none)
    (hb : ∀ i < b.length, matchAt pat (b.drop i) = none) :
    (∀ U : String, G.find? (fun p => p.1 == T) = some (T, ⟨some U⟩) →
      tp.process_text ⟨a ++ (pat.pre ++ (T.data ++ (pat.suf ++ b)))⟩ "markdown" =
        some (⟨a ++ (("[" ++ T ++ "](" ++ U ++ ")").data ++ b)⟩, [T], []) ∧
      ("[" ++ T ++ "](" ++ U ++ ")").data <:+:
        a ++ (("[" ++ T ++ "](" ++ U ++ ")").data ++ b)) ∧
    ((∀ p ∈ G, p.1 ≠ T) → (∀ p ∈ G, pyLower p.1 ≠ pyLower T) →
      tp.process_text ⟨a ++ (pat.pre ++ (T.data ++ (pat.suf ++ b)))⟩ "markdown" =
        some (⟨a ++ (("**" ++ T ++ "**").data ++ b)⟩, [], [T])) := by
  have hGeq : tp.glossary = G := (make_ok_pattern hmk).1
  have hmain := process_text_single tp pat "markdown" a b T.data hcp hT hTc hsuf hsh ha hb
  have heta : (⟨T.data⟩ : String) = T := rfl
  rw [heta] at hmain
  constructor
  · intro U hU
    have hrep : replacer tp.glossary T "markdown" = (format_link T U "markdown", [T], []) := by
      rw [hGeq]
      exact replacer_found_exact "markdown" hU
    have hfmt : format_link T U "markdown" = "[" ++ T ++ "](" ++ U ++ ")" := by
      unfold format_link
      rw [if_neg (by decide), if_neg (by decide)]
    constructor
    · rw [hmain, hrep, hfmt, pySet_singleton, pySet_nil]
    · exact ⟨a, b, List.append_assoc _ _ _⟩
  · intro hex hci
    have h1 : G.find? (fun p => p.1 == T) = none :=
      List.find?_eq_none.mpr (fun p hp => by simpa using hex p hp)
    have h2 : G.find? (fun p => pyLower p.1 == pyLower T) = none :=
      List.find?_eq_none.mpr (fun p hp => by simpa using hci p hp)
    have hrep : replacer tp.glossary T "markdown" = (format_missing T "markdown", [], [T]) := by
      rw [hGeq]
      exact replacer_missing "markdown" h1 h2
    have hfmt : format_missing T "markdown" = "**" ++ T ++ "**" := by
      unfold format_missing
      rw [if_neg (by decide), if_neg (by decide)]
    rw [hmain, hrep, hfmt, pySet_singleton, pySet_nil]

theorem claim_C1_witness :
    (TextParser.process_text
        ⟨"\x7b\x7b\x7d\x7d", [("API", ⟨some "https://x/API"⟩)],
          "\\\x7b\\\x7b(\\w+)\\\x7d\\\x7d"⟩
        "The \x7b\x7bAPI\x7d\x7d is great" "markdown" =
      some ("The [API](https://x/API) is great", ["API"], []) ∧
      ("[" ++ "API" ++ "](" ++ "https://x/API" ++ ")").data <:+:
        ("The [API](https://x/API) is great" : String).data) ∧
    TextParser.process_text
        ⟨"\x7b\x7b\x7d\x7d", [("API", ⟨some "https://x/API"⟩)],
          "\\\x7b\\\x7b(\\w+)\\\x7d\\\x7d"⟩
        "The \x7b\x7bSDK\x7d\x7d is great" "markdown" =
      some ("The **SDK** is great", [], ["SDK"]) ∧
    (TextParser.process_text
        ⟨"custom", [("big term", ⟨some "v"⟩)], "\\~\\[([\\w\\s]+?)\\]\\~"⟩
        "A ~[big term]~ here" "markdown" =
      some ("A [big term](v) here", ["big term"], []) ∧
      ("[" ++ "big term" ++ "](" ++ "v" ++ ")").data <:+:
        ("A [big term](v) here" : String).data) :=
  ⟨(claim_C1 "\x7b\x7b\x7d\x7d" "API" [("API", ⟨some "https://x/API"⟩)] none none
      ⟨"\x7b\x7b\x7d\x7d", [("API", ⟨some "https://x/API"⟩)], "\\\x7b\\\x7b(\\w+)\\\x7d\\\x7d"⟩
      ⟨['\x7b', '\x7b'], .word, false, ['\x7d', '\x7d']⟩
      "The ".data " is great".data '\x7d' ['\x7d'] (by rfl) rfl (by decide) (by decide)
      rfl (by decide) (by decide) (by decide)).1 "https://x/API" (by decide),
   (claim_C1 "\x7b\x7b\x7d\x7d" "SDK" [("API", ⟨some "https://x/API"⟩)] none none
      ⟨"\x7b\x7b\x7d\x7d", [("API", ⟨some "https://x/API"⟩)], "\\\x7b\\\x7b(\\w+)\\\x7d\\\x7d"⟩
      ⟨['\x7b', '\x7b'], .word, false, ['\x7d', '\x7d']⟩
      "The ".data " is great".data '\x7d' ['\x7d'] (by rfl) rfl (by decide) (by decide)
      rfl (by decide) (by decide) (by decide)).2 (by decide) (by decide),
   (claim_C1 "custom" "big term" [("big term", ⟨some "v"⟩)] (some "~[") (some "]~")
      ⟨"custom", [("big term", ⟨some "v"⟩)], "\\~\\[([\\w\\s]+?)\\]\\~"⟩
      ⟨['~', '['], .wordSpace, true, [']', '~']⟩
      "A ".data " here".data ']' ['~'] (by rfl) rfl (by decide) (by decide)
      rfl (by decide) (by decide) (by decide)).1 "v" (by decide)⟩

/-- C2: for every captured term with no exact (case-sensitive) glossary
key, the replacer compares the term case-insensitively against the
glossary keys in insertion order and takes the first match, rendering the
link with that entry's URL and recording the glossary's canonical key (not
the captured raw text) in found-terms; in particular, processing a marked
`cpu` against a glossary containing key `CPU` (and not `cpu`) yields
found-terms `{"CPU"}`. -/
theorem claim_C2 (G₁ G₂ : Glossary) (k t fmt : String) (e : GlossaryEntry)
    (hex : ∀ p ∈ G₁ ++ (k, e) :: G₂, p.1 ≠ t)
    (hci : ∀ p ∈ G₁, pyLower p.1 ≠ pyLower t)
    (hk : pyLower k = pyLower t) :
    replacer (G₁ ++ (k, e) :: G₂) t fmt = (format_link t e.url fmt, [k], []) ∧
    (∀ (U : String) (tp : TextParser),
      TextParser.make "[[]]" [("CPU", ⟨some U⟩)] none none = Except.ok tp →
      tp.process_text "[[cpu]]" "markdown" =
        some ("[cpu](" ++ U ++ ")", ["CPU"], [])) := by
  constructor
  · have h1 : (G₁ ++ (k, e) :: G₂).find? (fun p => p.1 == t) = none :=
      List.find?_eq_none.mpr (fun p hp => by simpa using hex p hp)
    have h2 : (G₁ ++ (k, e) :: G₂).find? (fun p => pyLower p.1 == pyLower t)
        = some (k, e) := by
      rw [List.find?_append]
      have hG1 : G₁.find? (fun p => pyLower p.1 == pyLower t) = none :=
        List.find?_eq_none.mpr (fun p hp => by simpa using hci p hp)
      rw [hG1, Option.none_or]
      exact List.find?_cons_of_pos _ (by simpa using hk)
    exact replacer_ci fmt h1 h2
  · intro U tp hmk
    have h0 : TextParser.make "[[]]" [("CPU", ⟨some U⟩)] none none =
        Except.ok ⟨"[[]]", [("CPU", ⟨some U⟩)], "\\[\\[(\\w+)\\]\\]"⟩ := rfl
    rw [h0] at hmk
    have htp := Except.ok.inj hmk
    subst htp
    have hcp : compilePattern (("\\[\\[(\\w+)\\]\\]" : String)).data
        = some ⟨['[', '['], .word, false, [']', ']']⟩ := rfl
    have hmain := process_text_single
      ⟨"[[]]", [("CPU", ⟨some U⟩)], "\\[\\[(\\w+)\\]\\]"⟩
      ⟨['[', '['], .word, false, [']', ']']⟩ "markdown" [] [] "cpu".data
      hcp (by decide) (by decide) rfl (by decide)
      (by intro i hi; exact absurd hi (Nat.not_lt_zero i))
      (by intro i hi; exact absurd hi (Nat.not_lt_zero i))
    have hrep : replacer [("CPU", ⟨some U⟩)] ⟨"cpu".data⟩ "markdown"
        = (format_link "cpu" U "markdown", ["CPU"], []) := by
      have h1 : ([("CPU", (⟨some U⟩ : GlossaryEntry))]).find? (fun p => p.1 == "cpu")
          = none := rfl
      have h2 : ([("CPU", (⟨some U⟩ : GlossaryEntry))]).find?
          (fun p => pyLower p.1 == pyLower "cpu") = some ("CPU", ⟨some U⟩) := rfl
      have := replacer_ci (g := [("CPU", ⟨some U⟩)]) (T := "cpu") (k := "CPU")
        (e := ⟨some U⟩) "markdown" h1 h2
      exact this
    rw [hrep] at hmain
    have hfmt : format_link "cpu" U "markdown" = "[cpu](" ++ U ++ ")" := by
      unfold format_link
      rw [if_neg (by decide), if_neg (by decide)]
      rfl
    rw [hfmt, pySet_singleton, pySet_nil] at hmain
    have htext : ("[[cpu]]" : String) =
        ⟨[] ++ (['[', '['] ++ ("cpu".data ++ ([']', ']'] ++ ([] : List Char))))⟩ := rfl
    rw [htext, hmain]
    have : (⟨[] ++ (("[cpu](" ++ U ++ ")").data ++ ([] : List Char))⟩ : String)
        = "[cpu](" ++ U ++ ")" := by
      apply String.ext
      simp
    rw [this]

theorem claim_C2_witness :
    (replacer [("Alpha", ⟨some "a"⟩), ("CPU", ⟨some "u"⟩), ("cpU", ⟨some "v"⟩)]
        "cpu" "markdown" = (format_link "cpu" (GlossaryEntry.url ⟨some "u"⟩) "markdown",
          ["CPU"], []) ∧
      (∀ (U : String) (tp : TextParser),
        TextParser.make "[[]]" [("CPU", ⟨some U⟩)] none none = Except.ok tp →
        tp.process_text "[[cpu]]" "markdown" =
          some ("[cpu](" ++ U ++ ")", ["CPU"], []))) :=
  claim_C2 [("Alpha", ⟨some "a"⟩)] [("cpU", ⟨some "v"⟩)] "CPU" "cpu" "markdown"
    ⟨some "u"⟩ (by decide) (by decide) (by decide)

/-- C10: for every non-empty prefix and suffix — of any length, including
components longer than 10 characters — constructing `TextParser` with
syntax `"custom"` succeeds and stores exactly the pattern
`escape(prefix)([\w\s]+?)escape(suffix)`; the construction path never
enforces the 10-character limit, even though `validate_custom_syntax`
rejects the same pair. -/
theorem claim_C10 (p s : String) (G : Glossary) (hp : p ≠ "") (hs : s ≠ "") :
    TextParser.make "custom" G (some p) (some s) =
      Except.ok ⟨"custom", G,
        ⟨reEscape p.data ++ "([\\w\\s]+?)".data ++ reEscape s.data⟩⟩ ∧
    (p.length > 10 ∨ s.length > 10 → (validate_custom_pair p s).1 = false) := by
  constructor
  · unfold TextParser.make
    have hc : (decide ("custom" = "custom") && truthy (some p) && truthy (some s)) = true := by
      simp [truthy, hp, hs]
    rw [if_pos hc]
    rfl
  · intro hlong
    unfold validate_custom_pair
    have hc1 : ¬((p = "" || s = "") = true) := by simp [hp, hs]
    have hc2 : (p.length > 10 || s.length > 10) = true := by
      rcases hlong with h | h <;> simp [h]
    rw [if_neg hc1, if_pos hc2]

/-- C3: for every successfully constructed parser — builtin or custom —
and every output format, processing a text in which the compiled pattern
has zero matches (no match starts at any position) returns the text
unchanged together with empty found-terms and missing-terms lists. -/
theorem claim_C3 (name : String) (G : Glossary) (cp cs : Option String)
    (tp : TextParser) (text fmt : String)
    (hmk : TextParser.make name G cp cs = Except.ok tp)
    (hnm : ∀ pat, compilePattern tp.pattern.data = some pat →
      ∀ i < text.data.length, matchAt pat (text.data.drop i) = none) :
    tp.process_text text fmt = some (text, [], []) := by
  obtain ⟨-, -, hcase⟩ := make_ok_pattern hmk
  obtain ⟨pat, hcp⟩ : ∃ pat, compilePattern tp.pattern.data = some pat := by
    rcases hcase with ⟨p, s, -, -, hpat⟩ | ⟨q, hq, hpat⟩
    · exact ⟨_, by rw [hpat]; exact custom_info_pattern_compiles p s⟩
    · simp only [SYNTAX_PATTERNS, DEFAULT_SYNTAX_PATTERNS, List.mem_cons,
        List.not_mem_nil, or_false] at hq
      rcases hq with rfl | rfl | rfl | rfl <;> rw [hpat]
      · exact ⟨⟨[], .word, false, ['<', '?', '>']⟩, rfl⟩
      · exact ⟨⟨['[', '['], .word, false, [']', ']']⟩, rfl⟩
      · exact ⟨⟨['\x7b', '\x7b'], .word, false, ['\x7d', '\x7d']⟩, rfl⟩
      · exact ⟨⟨['<', '<'], .word, false, ['>', '>']⟩, rfl⟩
  unfold TextParser.process_text
  rw [hcp]
  simp [subScan_no_match (hnm pat hcp), pySet_nil]

theorem claim_C3_witness :
    TextParser.process_text
      ⟨"[[]]", [("API", ⟨some "u"⟩)], "\\[\\[(\\w+)\\]\\]"⟩
      "no marks here" "html" = some ("no marks here", [], []) :=
  claim_C3 "[[]]" [("API", ⟨some "u"⟩)] none none
    ⟨"[[]]", [("API", ⟨some "u"⟩)], "\\[\\[(\\w+)\\]\\]"⟩ "no marks here" "html"
    (by rfl)
    (by
      intro pat hcp
      have h0 : compilePattern ("\\[\\[(\\w+)\\]\\]" : String).data
          = some ⟨['[', '['], .word, false, [']', ']']⟩ := rfl
      rw [h0] at hcp
      have hpat := (Option.some.inj hcp).symm
      subst hpat
      decide)

/-- C5: every builtin syntax pattern contains the capture group `(\w+)`
and its compiled matcher captures only word characters — never a space —
while a custom pattern built from any prefix/suffix pair is exactly
`escape(prefix)([\w\s]+?)escape(suffix)`, compiling to a lazy `[\w\s]`
capture, so multi-word terms are matchable only through custom syntax
(witnessed by a concrete two-word capture below). -/
theorem claim_C5 :
    (∀ q ∈ DEFAULT_SYNTAX_PATTERNS, ∃ x y,
        q.2.pattern.data = x ++ grpW ++ y ∧
        ∃ pat, compilePattern q.2.pattern.data = some pat ∧ pat.cls = .word ∧
          pat.lazy = false ∧
          ∀ s cap rest, matchAt pat s = some (cap, rest) →
            ∀ c ∈ cap, isWordChar c = true ∧ isSpaceChar c = false) ∧
    (∀ p s : String, (create_custom_syntax_info p s).pattern.data
        = reEscape p.data ++ grpWS ++ reEscape s.data ∧
      compilePattern (create_custom_syntax_info p s).pattern.data
        = some ⟨p.data, .wordSpace, true, s.data⟩) ∧
    (matchAt ⟨"~[".data, .wordSpace, true, "]~".data⟩ "~[two words]~".data
        = some ("two words".data, []) ∧ ' ' ∈ "two words".data) := by
  refine ⟨?_, ?_, by decide, by decide⟩
  · intro q hq
    have hword : ∀ (pat : Pattern), pat.cls = .word →
        ∀ s cap rest, matchAt pat s = some (cap, rest) →
        ∀ c ∈ cap, isWordChar c = true ∧ isSpaceChar c = false := by
      intro pat hcls s cap rest hm c hc
      have h3 := (matchAt_some hm).2.2 c hc
      rw [hcls] at h3
      exact ⟨h3, word_not_space h3⟩
    simp only [DEFAULT_SYNTAX_PATTERNS, List.mem_cons, List.not_mem_nil, or_false] at hq
    rcases hq with rfl | rfl | rfl | rfl
    · exact ⟨[], "<\\?>".data, rfl,
        ⟨[], .word, false, ['<', '?', '>']⟩, rfl, rfl, rfl, hword _ rfl⟩
    · exact ⟨"\\[\\[".data, "\\]\\]".data, rfl,
        ⟨['[', '['], .word, false, [']', ']']⟩, rfl, rfl, rfl, hword _ rfl⟩
    · exact ⟨"\\\x7b\\\x7b".data, "\\\x7d\\\x7d".data, rfl,
        ⟨['\x7b', '\x7b'], .word, false, ['\x7d', '\x7d']⟩, rfl, rfl, rfl, hword _ rfl⟩
    · exact ⟨"<<".data, ">>".data, rfl,
        ⟨['<', '<'], .word, false, ['>', '>']⟩, rfl, rfl, rfl, hword _ rfl⟩
  · intro p s
    exact ⟨rfl, custom_info_pattern_compiles p s⟩

theorem claim_C5_witness :
    ∃ x y, (("\\[\\[(\\w+)\\]\\]" : String)).data = x ++ grpW ++ y ∧
      ∃ pat, compilePattern (("\\[\\[(\\w+)\\]\\]" : String)).data = some pat ∧
        pat.cls = .word ∧ pat.lazy = false ∧
        ∀ s cap rest, matchAt pat s = some (cap, rest) →
          ∀ c ∈ cap, isWordChar c = true ∧ isSpaceChar c = false :=
  claim_C5.1 ("[[]]", ⟨"\\[\\[(\\w+)\\]\\]", "[[term]]", "The [[CPU]] is fast"⟩) (by decide)

theorem claim_C10_witness :
    TextParser.make "custom" [] (some "aaaaaaaaaaa") (some "]~") =
      Except.ok ⟨"custom", [],
        ⟨reEscape "aaaaaaaaaaa".data ++ "([\\w\\s]+?)".data ++ reEscape "]~".data⟩⟩ ∧
    ("aaaaaaaaaaa".length > 10 ∨ ("]~" : String).length > 10 →
      (validate_custom_pair "aaaaaaaaaaa" "]~").1 = false) :=
  claim_C10 "aaaaaaaaaaa" "]~" [] (by decide) (by decide)

theorem forall₂_map_self {α β : Type} (f : α → β) :
    ∀ (xs : List α), List.Forall₂ (fun x y => y = f x) xs (xs.map f)
  | [] => List.Forall₂.nil
  | _ :: xs => List.Forall₂.cons rfl (forall₂_map_self f xs)

/-- C7: the OpenAI tool conversion returns, in the same order, one
`{type: "function", function: {name, description, parameters}}` envelope
per canonical tool, where `parameters` is exactly the tool's
`input_schema` (defaulting to `{type: "object", properties: {}}` when the
tool has none); provided no tool's schema itself contains an
`input_schema` key, that key occurs nowhere in the result. -/
theorem claim_C7 (tools : List McpTool)
    (hs : ∀ t ∈ tools, ∀ sch, t.input_schema = some sch →
      Json.containsKey "input_schema" sch = false) :
    List.Forall₂ (fun (tool : McpTool) (j : Json) =>
      j = Json.obj
        [("type", Json.str "function"),
         ("function", Json.obj
           [("name", Json.str tool.name),
            ("description", Json.str (tool.description.getD "")),
            ("parameters", tool.input_schema.getD
              (Json.obj [("type", Json.str "object"), ("properties", Json.obj [])]))])])
      tools (OpenAIProvider.convert_tools_format tools) ∧
    ∀ j ∈ OpenAIProvider.convert_tools_format tools,
      Json.containsKey "input_schema" j = false := by
  constructor
  · exact forall₂_map_self _ tools
  · intro j hj
    simp only [OpenAIProvider.convert_tools_format, List.mem_map] at hj
    obtain ⟨t, ht, rfl⟩ := hj
    cases hsch : t.input_schema with
    | none => rfl
    | some sch =>
      have hks := hs t ht sch hsch
      simp [Json.containsKey, Json.containsKeyFields, Json.containsKeyList, hks]

theorem claim_C7_witness :
    List.Forall₂ (fun (tool : McpTool) (j : Json) =>
      j = Json.obj
        [("type", Json.str "function"),
         ("function", Json.obj
           [("name", Json.str tool.name),
            ("description", Json.str (tool.description.getD "")),
            ("parameters", tool.input_schema.getD
              (Json.obj [("type", Json.str "object"), ("properties", Json.obj [])]))])])
      [⟨"create_page", some "Create a page",
        some (Json.obj [("type", Json.str "object"),
          ("properties", Json.obj [("title", Json.obj [("type", Json.str "string")])]),
          ("required", Json.arr [Json.str "title"])])⟩]
      (OpenAIProvider.convert_tools_format
        [⟨"create_page", some "Create a page",
          some (Json.obj [("type", Json.str "object"),
            ("properties", Json.obj [("title", Json.obj [("type", Json.str "string")])]),
            ("required", Json.arr [Json.str "title"])])⟩]) ∧
    ∀ j ∈ OpenAIProvider.convert_tools_format
        [⟨"create_page", some "Create a page",
          some (Json.obj [("type", Json.str "object"),
            ("properties", Json.obj [("title", Json.obj [("type", Json.str "string")])]),
            ("required", Json.arr [Json.str "title"])])⟩],
      Json.containsKey "input_schema" j = false :=
  claim_C7 _ (by
    intro t ht sch hsch
    simp only [List.mem_singleton] at ht
    subst ht
    cases hsch
    rfl)

/-- C8: extracting tool calls from an OpenAI response whose first choice
carries a non-empty `tool_calls` array parses each call's JSON `arguments`
string into the canonical input; when the string is not valid JSON the
call is still returned with the empty map as input — extraction is total
and never aborts on a malformed argument string. -/
theorem claim_C8 (r : OpenAIResponse) (choice : OpenAIChoiceDict)
    (rest : List OpenAIChoiceDict) (calls : List OpenAIToolCallDict)
    (hch : r.choices = choice :: rest)
    (htc : choice.message.tool_calls = some calls) (hne : calls ≠ []) :
    OpenAIProvider.extract_tool_calls r =
      some (calls.map (fun call =>
        { id := call.id, name := call.function.name,
          input := (json_loads call.function.arguments).getD (Json.obj []) })) ∧
    List.Forall₂ (fun (call : OpenAIToolCallDict) (c : CanonToolCall) =>
      c.id = call.id ∧ c.name = call.function.name ∧
      (∀ v, json_loads call.function.arguments = some v → c.input = v) ∧
      (json_loads call.function.arguments = none → c.input = Json.obj []))
      calls
      (calls.map (fun call =>
        { id := call.id, name := call.function.name,
          input := (json_loads call.function.arguments).getD (Json.obj []) })) := by
  constructor
  · unfold OpenAIProvider.extract_tool_calls
    rw [hch]
    simp only
    rw [htc]
    cases calls with
    | nil => exact absurd rfl hne
    | cons c cs => rfl
  · clear hch htc hne
    induction calls with
    | nil => exact List.Forall₂.nil
    | cons c cs ih =>
      refine List.Forall₂.cons ⟨rfl, rfl, ?_, ?_⟩ ih
      · intro v hv
        simp [hv]
      · intro hv
        simp [hv]

theorem claim_C8_witness :
    OpenAIProvider.extract_tool_calls
        ⟨[⟨⟨none, some [⟨"call_1", ⟨"create_page", "\x7b\"title\": \"X\"\x7d"⟩⟩]⟩⟩]⟩ =
      some [⟨"call_1", "create_page", Json.obj [("title", Json.str "X")]⟩] ∧
    OpenAIProvider.extract_tool_calls
        ⟨[⟨⟨none, some [⟨"call_1", ⟨"create_page", "not json"⟩⟩]⟩⟩]⟩ =
      some [⟨"call_1", "create_page", Json.obj []⟩] :=
  ⟨(claim_C8 ⟨[⟨⟨none, some [⟨"call_1", ⟨"create_page", "\x7b\"title\": \"X\"\x7d"⟩⟩]⟩⟩]⟩
      ⟨⟨none, some [⟨"call_1", ⟨"create_page", "\x7b\"title\": \"X\"\x7d"⟩⟩]⟩⟩ []
      [⟨"call_1", ⟨"create_page", "\x7b\"title\": \"X\"\x7d"⟩⟩]
      rfl rfl (by simp)).1,
   (claim_C8 ⟨[⟨⟨none, some [⟨"call_1", ⟨"create_page", "not json"⟩⟩]⟩⟩]⟩
      ⟨⟨none, some [⟨"call_1", ⟨"create_page", "not json"⟩⟩]⟩⟩ []
      [⟨"call_1", ⟨"create_page", "not json"⟩⟩]
      rfl rfl (by simp)).1⟩

/-- C9: each provider's `extract_tool_calls` returns `None` — never an
empty list — when the response carries no tool call: Claude when the stop
reason is not `"tool_use"` or no `tool_use` block is present, OpenAI when
there are no choices or the first message has no (or an empty)
`tool_calls` array, and Gemini when `function_calls` is empty; moreover
none of the three can ever return `some []`. -/
theorem claim_C9 :
    (∀ r : ClaudeResponse, r.stop_reason ≠ some "tool_use" →
      ClaudeProvider.extract_tool_calls r = none) ∧
    (∀ r : ClaudeResponse,
      (∀ b ∈ r.content, ∀ i n inp, b ≠ ClaudeBlock.tool_use i n inp) →
      ClaudeProvider.extract_tool_calls r = none) ∧
    (∀ r : OpenAIResponse, r.choices = [] →
      OpenAIProvider.extract_tool_calls r = none) ∧
    (∀ (r : OpenAIResponse) (choice : OpenAIChoiceDict) (rest : List OpenAIChoiceDict),
      r.choices = choice :: rest →
      choice.message.tool_calls = none ∨ choice.message.tool_calls = some [] →
      OpenAIProvider.extract_tool_calls r = none) ∧
    (∀ r : GeminiResponse, r.function_calls = [] →
      GeminiProvider.extract_tool_calls r = none) ∧
    (∀ (r : ClaudeResponse) (l : List CanonToolCall),
      ClaudeProvider.extract_tool_calls r = some l → l ≠ []) ∧
    (∀ (r : OpenAIResponse) (l : List CanonToolCall),
      OpenAIProvider.extract_tool_calls r = some l → l ≠ []) ∧
    (∀ (r : GeminiResponse) (l : List CanonToolCall),
      GeminiProvider.extract_tool_calls r = some l → l ≠ []) := by
  refine ⟨?_, ?_, ?_, ?_, ?_, ?_, ?_, ?_⟩
  · intro r h
    unfold ClaudeProvider.extract_tool_calls
    rw [if_pos h]
  · intro r h
    unfold ClaudeProvider.extract_tool_calls
    by_cases hsr : r.stop_reason ≠ some "tool_use"
    · rw [if_pos hsr]
    · rw [if_neg hsr]
      have hnil : r.content.filterMap (fun block =>
          match block with
          | ClaudeBlock.tool_use i n inp =>
            some ({ id := i, name := n, input := inp } : CanonToolCall)
          | _ => none) = [] := by
        rw [List.filterMap_eq_nil_iff]
        intro b hb
        cases b with
        | text s => rfl
        | tool_use i n inp => exact absurd rfl (h _ hb i n inp)
        | unknown => rfl
      simp [hnil]
  · intro r h
    unfold OpenAIProvider.extract_tool_calls
    rw [h]
  · intro r choice rest hch htc
    unfold OpenAIProvider.extract_tool_calls
    rw [hch]
    simp only
    rcases htc with h | h <;> rw [h]
  · intro r h
    unfold GeminiProvider.extract_tool_calls
    rw [h]
    rfl
  · intro r l hl
    unfold ClaudeProvider.extract_tool_calls at hl
    by_cases hsr : r.stop_reason ≠ some "tool_use"
    · rw [if_pos hsr] at hl
      cases hl
    · rw [if_neg hsr] at hl
      simp only at hl
      set tcs := r.content.filterMap (fun block =>
        match block with
        | ClaudeBlock.tool_use i n inp =>
          some ({ id := i, name := n, input := inp } : CanonToolCall)
        | _ => none) with htcs
      by_cases he : tcs.isEmpty = true
      · rw [if_pos he] at hl
        cases hl
      · rw [if_neg he] at hl
        have := Option.some.inj hl
        subst this
        intro hnil
        rw [hnil] at he
        exact he rfl
  · intro r l hl
    unfold OpenAIProvider.extract_tool_calls at hl
    cases hch : r.choices with
    | nil => rw [hch] at hl; cases hl
    | cons choice rest =>
      rw [hch] at hl
      simp only at hl
      cases htc : choice.message.tool_calls with
      | none => rw [htc] at hl; cases hl
      | some calls =>
        rw [htc] at hl
        cases calls with
        | nil => cases hl
        | cons c cs =>
          have := Option.some.inj hl
          subst this
          simp
  · intro r l hl
    unfold GeminiProvider.extract_tool_calls at hl
    simp only at hl
    by_cases he : r.function_calls.isEmpty = true
    · rw [if_pos he] at hl
      cases hl
    · rw [if_neg he] at hl
      have := Option.some.inj hl
      subst this
      intro hnil
      rw [List.map_eq_nil_iff] at hnil
      have : r.function_calls = [] := by
        cases hfc : r.function_calls with
        | nil => rfl
        | cons x xs => rw [hfc] at hnil; simp [List.enum] at hnil
      rw [this] at he
      exact he rfl

theorem claim_C9_witness :
    ClaudeProvider.extract_tool_calls ⟨some "end_turn", []⟩ = none ∧
    ClaudeProvider.extract_tool_calls ⟨some "tool_use", [ClaudeBlock.text "hi"]⟩ = none ∧
    OpenAIProvider.extract_tool_calls ⟨[]⟩ = none ∧
    OpenAIProvider.extract_tool_calls ⟨[⟨⟨none, none⟩⟩]⟩ = none ∧
    GeminiProvider.extract_tool_calls ⟨[]⟩ = none ∧
    ([⟨"i1", "n1", Json.null⟩] : List CanonToolCall) ≠ [] ∧
    ([⟨"call_1", "create_page", Json.obj [("title", Json.str "X")]⟩] :
      List CanonToolCall) ≠ [] ∧
    ([⟨"call_0", "t", Json.null⟩] : List CanonToolCall) ≠ [] :=
  ⟨claim_C9.1 ⟨some "end_turn", []⟩ (by simp),
   claim_C9.2.1 ⟨some "tool_use", [ClaudeBlock.text "hi"]⟩ (by
     intro b hb i n inp h
     simp only [List.mem_singleton] at hb
     subst hb
     cases h),
   claim_C9.2.2.1 ⟨[]⟩ rfl,
   claim_C9.2.2.2.1 ⟨[⟨⟨none, none⟩⟩]⟩ ⟨⟨none, none⟩⟩ [] rfl (Or.inl rfl),
   claim_C9.2.2.2.2.1 ⟨[]⟩ rfl,
   claim_C9.2.2.2.2.2.1 ⟨some "tool_use", [ClaudeBlock.tool_use "i1" "n1" Json.null]⟩
     [⟨"i1", "n1", Json.null⟩] rfl,
   claim_C9.2.2.2.2.2.2.1
     ⟨[⟨⟨none, some [⟨"call_1", ⟨"create_page", "\x7b\"title\": \"X\"\x7d"⟩⟩]⟩⟩]⟩
     [⟨"call_1", "create_page", Json.obj [("title", Json.str "X")]⟩] rfl,
   claim_C9.2.2.2.2.2.2.2 ⟨[⟨"t", Json.null⟩]⟩ [⟨"call_0", "t", Json.null⟩] rfl⟩

end TelegraphGlossary
